import Mathlib

namespace ArxivSearch

/-!
Verification of the arxiv-search core against its specification.

Part 1 embeds the classic-API phrase translator
(`search/services/index/classic.py`): `_phrase_to_query`,
`_term_to_query`, and the `Q` boolean query algebra the fold builds.
-/

/-- Closed enumeration of searchable attributes, as enumerated by the
`FIELD_TERM_MAPPING` keys in `_term_to_query` (source `classic.py`). -/
inductive Field where
  | Author
  | Comment
  | Identifier
  | JournalReference
  | ReportNumber
  | SubjectCategory
  | Title
  | All
deriving DecidableEq

/-- Closed enumeration of boolean operators of the classic Phrase grammar. -/
inductive Operator where
  | AND
  | OR
  | ANDNOT
deriving DecidableEq

/-- A Python value that may appear as a token of a Phrase tuple: an
`Operator` member, a `Field` member, a plain string, or a nested tuple
(a Term or a nested Phrase). `_phrase_to_query` dispatches on these
shapes with `isinstance` checks. -/
inductive Tok where
  | op (o : Operator)
  | field (f : Field)
  | strv (s : String)
  | tup (ts : List Tok)

/-- Modelled from the spec: the Query algebra produced by the translator.
The `elasticsearch_dsl` `Q` type is an external collaborator not under
`src/`; the spec defines Query as an opaque boolean expression tree over
leaf match nodes with combinators AND(a,b), OR(a,b), NOT(a), plus the
universal (match-everything) identity `Q()` that seeds the fold.
A leaf records the Field and the raw value handed to that Field's
registered builder (builders are external and opaque). -/
inductive Q where
  | matchAll
  | and (a b : Q)
  | or (a b : Q)
  | not (a : Q)
  | leaf (f : Field) (v : Tok)

/-- Errors the translation can raise: `IndexError` (subscripting an empty
tuple), `KeyError` (a `FIELD_TERM_MAPPING` lookup with a non-Field key),
and `ValueError("invalid phrase component: ...")` carrying the offending
token — the `MalformedPhraseError` of the spec. -/
inductive PhraseError where
  | indexError
  | keyError (t : Tok)
  | malformed (t : Tok)

/-- Boolean semantics of a Query: a valuation assigns a truth value to
each leaf (whether a document matches that fielded condition); the
combinators are the boolean connectives and `matchAll` is true. -/
def Qeval (env : Field → Tok → Bool) : Q → Bool
  | Q.matchAll => true
  | Q.and a b => Qeval env a && Qeval env b
  | Q.or a b => Qeval env a || Qeval env b
  | Q.not a => !(Qeval env a)
  | Q.leaf f v => env f v

/-- `_term_to_query`: destructures the 2-tuple as `field, val` and applies
`FIELD_TERM_MAPPING[field]` to `val`. The mapping covers every `Field`
member, so the lookup raises `KeyError` exactly when the first element is
not a `Field`. The external builder's output is the opaque leaf. -/
def term_to_query (f val : Tok) : Except PhraseError Q :=
  match f with
  | Tok.field fld => Except.ok (Q.leaf fld val)
  | t => Except.error (PhraseError.keyError t)

/-- Does the token satisfy `isinstance(token, Operator)`? -/
def Tok.isOp : Tok → Bool
  | Tok.op _ => true
  | _ => false

/-- Does the token satisfy `isinstance(token, str)` (a bare string value)? -/
def Tok.isStr : Tok → Bool
  | Tok.strv _ => true
  | _ => false

/-- Fold one operand into the accumulator with the current operator:
`AND` is `q &= phrase_q`, `OR` is `q |= phrase_q`, `ANDNOT` is
`q &= ~phrase_q` (source lines 62-67). -/
def combineQ (cur : Operator) (q pq : Q) : Q :=
  match cur with
  | Operator.AND => Q.and q pq
  | Operator.OR => Q.or q pq
  | Operator.ANDNOT => Q.and q (Q.not pq)

/-- The `sizeOf` of any token list is positive (used for termination of the
mutual translation functions). -/
theorem tokList_sizeOf_pos (l : List Tok) : 0 < sizeOf l := by
  cases l <;> simp

mutual

/-- `_phrase_to_query`: base case first — `phrase[0]` is a `Field` and
`len(phrase) == 2` delegates to `_term_to_query(phrase)`; `phrase[0]` on
an empty tuple raises `IndexError`; otherwise the left-to-right fold with
accumulator `Q()` and current operator initialized to `AND`. -/
def phrase_to_query (phrase : List Tok) : Except PhraseError Q :=
  match phrase with
  | [] => Except.error PhraseError.indexError
  | [Tok.field fld, t2] => term_to_query (Tok.field fld) t2
  | p => phraseLoop p Operator.AND Q.matchAll
termination_by sizeOf phrase + 1

/-- The token loop of `_phrase_to_query` (source lines 50-69): an
`Operator` token replaces the current operator; a tuple token is
classified in place (source lines 55-60: `token[0]` on an empty tuple
raises `IndexError`; a tuple whose first element is an `Operator`, or of
length 3, is a nested Phrase translated recursively; a length-2 tuple is
a Term; anything else raises the `ValueError` the spec names
`MalformedPhraseError`) and the translated operand is folded in with
`combineQ`; any other token is silently skipped (the `if`/`elif` chain
has no `else`). -/
def phraseLoop (l : List Tok) (cur : Operator) (q : Q) : Except PhraseError Q :=
  match l with
  | [] => Except.ok q
  | Tok.op o :: rest => phraseLoop rest o q
  | Tok.tup ts :: rest =>
    match subQuery ts with
    | Except.ok pq => phraseLoop rest cur (combineQ cur q pq)
    | Except.error e => Except.error e
  | _ :: rest => phraseLoop rest cur q
termination_by sizeOf l
decreasing_by
  all_goals simp_wf
  all_goals first
  | omega
  | (have h := tokList_sizeOf_pos rest; omega)

/-- Classification of a tuple token met by the loop (source lines 54-60):
`token[0]` on an empty tuple raises `IndexError`; a tuple whose first
element is an `Operator`, or of length 3, is a nested Phrase translated
recursively; a length-2 tuple is a Term; anything else raises the
`ValueError` that the spec names `MalformedPhraseError`. -/
def subQuery : List Tok → Except PhraseError Q
  | [] => Except.error PhraseError.indexError
  | t0 :: tail =>
    if t0.isOp || (t0 :: tail).length == 3 then
      phrase_to_query (t0 :: tail)
    else
      match tail with
      | [b] => term_to_query t0 b
      | _ => Except.error (PhraseError.malformed (Tok.tup (t0 :: tail)))
termination_by ts => sizeOf ts + 2

end

attribute [simp] Qeval term_to_query combineQ

/-- A bare-Term Phrase `(f, v)` as the translator receives it: its two
tokens are a bare `Field` and a bare string value. -/
def bareTerm (f : Field) (v : String) : List Tok :=
  [Tok.field f, Tok.strv v]

/-- A Term appearing as a single (tuple) token inside an enclosing Phrase. -/
def termTok (f : Field) (v : String) : Tok :=
  Tok.tup [Tok.field f, Tok.strv v]

/-- C1: the claim states that on a bare-Term Phrase the two-element base
case returns the same Query the general fold (step 2) would return. It is
false: on `(Field.Title, "x")` the base case returns the leaf query while
the general fold skips both tokens (a bare `Field` and a bare string are
neither `Operator` nor tuple instances) and returns the untouched
`match_all` accumulator; the two queries also differ semantically. -/
theorem c1_counterexample :
    phrase_to_query (bareTerm Field.Title "x")
        = Except.ok (Q.leaf Field.Title (Tok.strv "x"))
    ∧ phraseLoop (bareTerm Field.Title "x") Operator.AND Q.matchAll
        = Except.ok Q.matchAll
    ∧ Q.leaf Field.Title (Tok.strv "x") ≠ Q.matchAll
    ∧ Qeval (fun _ _ => false) (Q.leaf Field.Title (Tok.strv "x")) = false
    ∧ Qeval (fun _ _ => false) Q.matchAll = true := by
  refine ⟨by simp [bareTerm, phrase_to_query], by simp [bareTerm, phraseLoop], ?_, rfl, rfl⟩
  intro h
  exact Q.noConfusion h

/-- C1 (amended): the two-element base case is a genuine semantic special
case, not a pure shortcut: for every bare-Term Phrase `(f, v)`,
`translate` returns the leaf translation, whereas the general
left-to-right fold on that same Phrase silently skips both tokens and
returns the universal `match_all` accumulator; the two agree only when
the Term is wrapped as a single tuple token of an enclosing Phrase
(where the fold conjoins the leaf with the universal identity). -/
theorem c1_base_case_is_special :
    ∀ (f : Field) (v : String),
      phrase_to_query (bareTerm f v) = Except.ok (Q.leaf f (Tok.strv v))
      ∧ phraseLoop (bareTerm f v) Operator.AND Q.matchAll = Except.ok Q.matchAll
      ∧ phrase_to_query [termTok f v]
          = Except.ok (Q.and Q.matchAll (Q.leaf f (Tok.strv v))) := by
  intro f v
  refine ⟨by simp [bareTerm, phrase_to_query], by simp [bareTerm, phraseLoop], ?_⟩
  simp [termTok, phrase_to_query, phraseLoop, subQuery]

/-- C2: operator tokens scope only forward.  On
`(TermA, Operator.OR, TermB, Operator.AND, TermC)` the fold produces
`AND(OR(AND(match_all, A), B), C)` — the trailing `AND` is applied only
to `TermC` — and this Query is semantically `AND(OR(A, B), C)` under
every leaf valuation; there is no retroactive regrouping of A and B. -/
theorem c2_operator_scope :
    ∀ (fA fB fC : Field) (vA vB vC : String) (env : Field → Tok → Bool),
      phrase_to_query
          [termTok fA vA, Tok.op Operator.OR, termTok fB vB,
           Tok.op Operator.AND, termTok fC vC]
        = Except.ok (Q.and
            (Q.or (Q.and Q.matchAll (Q.leaf fA (Tok.strv vA)))
                  (Q.leaf fB (Tok.strv vB)))
            (Q.leaf fC (Tok.strv vC)))
      ∧ Qeval env (Q.and
            (Q.or (Q.and Q.matchAll (Q.leaf fA (Tok.strv vA)))
                  (Q.leaf fB (Tok.strv vB)))
            (Q.leaf fC (Tok.strv vC)))
        = Qeval env (Q.and
            (Q.or (Q.leaf fA (Tok.strv vA)) (Q.leaf fB (Tok.strv vB)))
            (Q.leaf fC (Tok.strv vC))) := by
  intro fA fB fC vA vB vC env
  constructor
  · simp [termTok, phrase_to_query, phraseLoop, subQuery]
  · simp [Qeval]

/-- C3: ANDNOT folds as conjunction with the negated operand.  On
`(A, Operator.ANDNOT, B)` for Terms A and B the translator returns
`AND(AND(match_all, A), NOT(B))`, which is semantically
`AND(translate(A), NOT(translate(B)))` under every leaf valuation,
`translate` of a bare Term being its leaf translation. -/
theorem c3_andnot_equivalence :
    ∀ (fA fB : Field) (vA vB : String) (env : Field → Tok → Bool),
      phrase_to_query [termTok fA vA, Tok.op Operator.ANDNOT, termTok fB vB]
        = Except.ok (Q.and (Q.and Q.matchAll (Q.leaf fA (Tok.strv vA)))
            (Q.not (Q.leaf fB (Tok.strv vB))))
      ∧ phrase_to_query (bareTerm fA vA) = Except.ok (Q.leaf fA (Tok.strv vA))
      ∧ phrase_to_query (bareTerm fB vB) = Except.ok (Q.leaf fB (Tok.strv vB))
      ∧ Qeval env (Q.and (Q.and Q.matchAll (Q.leaf fA (Tok.strv vA)))
            (Q.not (Q.leaf fB (Tok.strv vB))))
        = Qeval env (Q.and (Q.leaf fA (Tok.strv vA))
            (Q.not (Q.leaf fB (Tok.strv vB)))) := by
  intro fA fB vA vB env
  refine ⟨?_, by simp [bareTerm, phrase_to_query],
      by simp [bareTerm, phrase_to_query], by simp [Qeval]⟩
  simp [termTok, phrase_to_query, phraseLoop, subQuery]

/-- C5: a leading explicit operator combines the first operand with the
universal identity accumulator.  `translate((Operator.OR, T))` returns
`OR(match_all, T)`, which matches every document under every leaf
valuation (degenerate match-all); `translate((Operator.ANDNOT, T))`
returns `AND(match_all, NOT(T))`, the blanket negation of T.  The code
preserves this degenerate behaviour. -/
theorem c5_leading_operator_degenerate :
    ∀ (f : Field) (v : String) (env : Field → Tok → Bool),
      phrase_to_query [Tok.op Operator.OR, termTok f v]
        = Except.ok (Q.or Q.matchAll (Q.leaf f (Tok.strv v)))
      ∧ Qeval env (Q.or Q.matchAll (Q.leaf f (Tok.strv v))) = true
      ∧ phrase_to_query [Tok.op Operator.ANDNOT, termTok f v]
        = Except.ok (Q.and Q.matchAll (Q.not (Q.leaf f (Tok.strv v))))
      ∧ Qeval env (Q.and Q.matchAll (Q.not (Q.leaf f (Tok.strv v))))
        = !(env f (Tok.strv v)) := by
  intro f v env
  refine ⟨?_, by simp [Qeval], ?_, by simp [Qeval]⟩
  · simp [termTok, phrase_to_query, phraseLoop, subQuery]
  · simp [termTok, phrase_to_query, phraseLoop, subQuery]

/-- A nonempty tuple token whose head is not an operator and whose length
is neither 2 nor 3 is classified as malformed. -/
theorem subQuery_malformed (t0 : Tok) (tail : List Tok)
    (ht0 : t0.isOp = false)
    (hlen2 : (t0 :: tail).length ≠ 2)
    (hlen3 : (t0 :: tail).length ≠ 3) :
    subQuery (t0 :: tail)
      = Except.error (PhraseError.malformed (Tok.tup (t0 :: tail))) := by
  match tail with
  | [] => simp [subQuery, ht0]
  | [b] => simp at hlen2
  | [b, c] => simp at hlen3
  | b :: c :: d :: es =>
    have h3 : ((t0 :: b :: c :: d :: es).length == 3) = false := by
      rw [beq_eq_false_iff_ne]
      simp
    simp [subQuery, ht0, h3]

/-- When the fold reaches a nonempty tuple token whose first element is
not an `Operator` and whose length is neither 2 nor 3, it raises the
`ValueError` carrying that token, provided every earlier token is an
operator or a bare string (so the loop merely updates state over the
prefix). -/
theorem phraseLoop_malformed_tuple (pre : List Tok) :
    ∀ (cur : Operator) (q : Q) (t0 : Tok) (tail post : List Tok),
      (∀ t ∈ pre, t.isOp = true ∨ t.isStr = true) →
      t0.isOp = false →
      (t0 :: tail).length ≠ 2 →
      (t0 :: tail).length ≠ 3 →
      phraseLoop (pre ++ Tok.tup (t0 :: tail) :: post) cur q
        = Except.error (PhraseError.malformed (Tok.tup (t0 :: tail))) := by
  induction pre with
  | nil =>
    intro cur q t0 tail post _ ht0 hlen2 hlen3
    have hsub := subQuery_malformed t0 tail ht0 hlen2 hlen3
    simp [phraseLoop, hsub]
  | cons x pre ih =>
    intro cur q t0 tail post hpre ht0 hlen2 hlen3
    have hx := hpre x (List.mem_cons_self x pre)
    have hpre' : ∀ t ∈ pre, t.isOp = true ∨ t.isStr = true :=
      fun t ht => hpre t (List.mem_cons_of_mem x ht)
    match x, hx with
    | Tok.op o, _ =>
      simpa [phraseLoop] using ih o q t0 tail post hpre' ht0 hlen2 hlen3
    | Tok.strv s, _ =>
      simpa [phraseLoop] using ih cur q t0 tail post hpre' ht0 hlen2 hlen3

/-- C4: the claim states that any token that is neither an `Operator`, a
Term, nor a nested Phrase makes translation fail with
`MalformedPhraseError`.  It is false: the loop's `if`/`elif` chain has no
final `else` for non-tuple tokens, so the bare string `"junk"` — which is
none of the recognized shapes — is silently skipped and a Query is
returned for the Phrase. -/
theorem c4_counterexample :
    phrase_to_query [termTok Field.Title "x", Tok.strv "junk"]
      = Except.ok (Q.and Q.matchAll (Q.leaf Field.Title (Tok.strv "x"))) := by
  simp [termTok, phrase_to_query, phraseLoop, subQuery]

/-- C4 (amended): only malformed *tuple* tokens are rejected: a nonempty
tuple token whose first element is not an `Operator` and whose length is
neither 2 nor 3 makes translation fail with `MalformedPhraseError`
carrying the offending token (here with a prefix of operator or bare
string tokens before it, and anything after it); tokens that are neither
`Operator` nor tuple instances are silently skipped and produce neither
an error nor a query node. -/
theorem c4_malformed_only_tuples :
    (∀ (pre post tail : List Tok) (t0 : Tok),
      (∀ t ∈ pre, t.isOp = true ∨ t.isStr = true) →
      t0.isOp = false →
      (t0 :: tail).length ≠ 2 →
      (t0 :: tail).length ≠ 3 →
      phrase_to_query (pre ++ Tok.tup (t0 :: tail) :: post)
        = Except.error (PhraseError.malformed (Tok.tup (t0 :: tail))))
    ∧ (∀ (f : Field) (v s : String),
      phrase_to_query [termTok f v, Tok.strv s]
        = Except.ok (Q.and Q.matchAll (Q.leaf f (Tok.strv v)))) := by
  constructor
  · intro pre post tail t0 hpre ht0 hlen2 hlen3
    have hloop := phraseLoop_malformed_tuple pre Operator.AND Q.matchAll
      t0 tail post hpre ht0 hlen2 hlen3
    match pre with
    | [] =>
      rw [phrase_to_query.eq_def]
      exact hloop
    | Tok.op o :: pre' =>
      rw [phrase_to_query.eq_def]
      exact hloop
    | Tok.strv s :: pre' =>
      rw [phrase_to_query.eq_def]
      exact hloop
    | Tok.field f :: pre' =>
      have := hpre (Tok.field f) (List.mem_cons_self _ pre')
      simp [Tok.isOp, Tok.isStr] at this
    | Tok.tup ts :: pre' =>
      have := hpre (Tok.tup ts) (List.mem_cons_self _ pre')
      simp [Tok.isOp, Tok.isStr] at this
  · intro f v s
    simp [termTok, phrase_to_query, phraseLoop, subQuery]

/-- Concrete instance of the amended C4: the length-4 tuple
`("a", "b", "c", "d")`, whose head is not an operator, is rejected with
the `ValueError` carrying the offending token, even after a leading
operator token. -/
theorem c4_malformed_only_tuples_witness :
    phrase_to_query
        [Tok.op Operator.OR,
         Tok.tup [Tok.strv "a", Tok.strv "b", Tok.strv "c", Tok.strv "d"]]
      = Except.error (PhraseError.malformed
          (Tok.tup [Tok.strv "a", Tok.strv "b", Tok.strv "c", Tok.strv "d"])) := by
  have h := c4_malformed_only_tuples.1 [Tok.op Operator.OR] []
      [Tok.strv "b", Tok.strv "c", Tok.strv "d"] (Tok.strv "a")
      (by intro t ht; simp at ht; subst ht; exact Or.inl rfl)
      rfl (by simp) (by simp)
  simpa using h

/-!
Part 2 models the highlight-safe snippet extractor.  The `highlighting`
module itself is not under `src/` (only its tests are), so the
definitions here are modelled from the spec (sections 4.2 and 4.3):
the Span Scanner `findSpans`, the safe-end computation `end_safely`
(`computeSafeEnd`), the net tag count `collapse_hl_tags` (`tagBalance`),
and `preview`.  Text is a list of characters, offsets are codepoint
indices.
-/

/-- Modelled from the spec: the number of non-overlapping occurrences of
`tag` in the text, scanning left to right (the semantics of Python's
`str.count` for a non-empty pattern, which `tagBalance` is specified to
take its counts from).  The fuel argument bounds the scan; every step
consumes at least one character, so the text length suffices. -/
def countSubFuel (tag : List Char) : Nat → List Char → Nat
  | 0, _ => 0
  | _, [] => 0
  | fuel + 1, c :: rest =>
    if tag ≠ [] ∧ tag.isPrefixOf (c :: rest) then
      1 + countSubFuel tag fuel ((c :: rest).drop tag.length)
    else
      countSubFuel tag fuel rest

/-- Non-overlapping occurrence count of `tag` in `text`. -/
def countSub (tag text : List Char) : Nat :=
  countSubFuel tag text.length text

/-- Modelled from the spec: `tagBalance(text, startTag, endTag)` returns
`count(startTag in text) - count(endTag in text)`, a plain net occurrence
difference with no nesting awareness (`collapse_hl_tags` in the source
tests). -/
def collapse_hl_tags (start_tag end_tag text : List Char) : Int :=
  (countSub start_tag text : Int) - (countSub end_tag text : Int)

/-- A contiguous half-open text range `[start, stop)` that must not be
split when truncating. -/
structure Span where
  start : Nat
  stop : Nat
deriving DecidableEq

/-- Index of the first occurrence of `target` in the list, if any. -/
def findChar (target : Char) : List Char → Option Nat
  | [] => none
  | c :: rest =>
    if c = target then some 0 else (findChar target rest).map (· + 1)

/-- Index of the next unescaped `$` (one not preceded by an unconsumed
backslash); `esc` records whether the previous character was an escaping
backslash. -/
def findUnescaped : List Char → Bool → Option Nat
  | [], _ => none
  | _ :: rest, true => (findUnescaped rest false).map (· + 1)
  | c :: rest, false =>
    if c = '\\' then (findUnescaped rest true).map (· + 1)
    else if c = '$' then some 0
    else (findUnescaped rest false).map (· + 1)

/-- Modelled from the spec: the Span Scanner.  Scanning left to right at
absolute position `i`: an occurrence of the caller's highlight start or
end tag literal is a span; a `$` opens a TeX math span ending at the next
unescaped `$`; a `<` opens an HTML-like tag span ending at the next `>`;
an unterminated `$` or `<` yields no span for that occurrence and the
scan continues after it.  The resulting spans are sorted by start offset
and non-overlapping.  Fuel bounds the scan; every step consumes at least
one character. -/
def findSpansAux (start_tag end_tag : List Char) :
    Nat → List Char → Nat → List Span
  | 0, _, _ => []
  | _, [], _ => []
  | fuel + 1, c :: rest, i =>
    if start_tag ≠ [] ∧ start_tag.isPrefixOf (c :: rest) then
      ⟨i, i + start_tag.length⟩ ::
        findSpansAux start_tag end_tag fuel ((c :: rest).drop start_tag.length)
          (i + start_tag.length)
    else if end_tag ≠ [] ∧ end_tag.isPrefixOf (c :: rest) then
      ⟨i, i + end_tag.length⟩ ::
        findSpansAux start_tag end_tag fuel ((c :: rest).drop end_tag.length)
          (i + end_tag.length)
    else if c = '$' then
      match findUnescaped rest false with
      | some k =>
        ⟨i, i + k + 2⟩ ::
          findSpansAux start_tag end_tag fuel (rest.drop (k + 1)) (i + k + 2)
      | none => findSpansAux start_tag end_tag fuel rest (i + 1)
    else if c = '<' then
      match findChar '>' rest with
      | some k =>
        ⟨i, i + k + 2⟩ ::
          findSpansAux start_tag end_tag fuel (rest.drop (k + 1)) (i + k + 2)
      | none => findSpansAux start_tag end_tag fuel rest (i + 1)
    else
      findSpansAux start_tag end_tag fuel rest (i + 1)

/-- All markup/math spans of the text, sorted and non-overlapping. -/
def findSpans (start_tag end_tag text : List Char) : List Span :=
  findSpansAux start_tag end_tag text.length text 0

/-- Modelled from the spec: `computeSafeEnd` (`_end_safely`).  If
`desiredEnd` falls strictly inside a scanner-reported span, snap to that
span's start offset, unless the overrun to the span's end offset is at
most `tolerance`, in which case snap to the span's end offset; if no span
intersects `desiredEnd`, return `min(desiredEnd, length(text))`. -/
def end_safely (text : List Char) (desiredEnd : Nat)
    (start_tag end_tag : List Char) (tolerance : Nat) : Nat :=
  match (findSpans start_tag end_tag text).find?
      (fun sp => decide (sp.start < desiredEnd) && decide (desiredEnd < sp.stop)) with
  | some sp => if sp.stop - desiredEnd ≤ tolerance then sp.stop else sp.start
  | none => min desiredEnd text.length

/-- Modelled from the spec: the fixed small tolerance used by `preview`;
the spec leaves the concrete value open, five characters is the
representative choice (it covers the `</em>` close tag of the
repository's fixtures). -/
def PREVIEW_TOLERANCE : Nat := 5

/-- Modelled from the spec: `preview` computes a safe end for the wanted
fragment size, takes the prefix up to it, and if the highlight tag
balance of that candidate is positive appends that many copies of the
end tag; a non-positive balance returns the candidate unmodified. -/
def preview (text : List Char) (fragment_size : Nat)
    (start_tag end_tag : List Char) : List Char :=
  let e := end_safely text fragment_size start_tag end_tag PREVIEW_TOLERANCE
  let candidate := text.take e
  let balance := collapse_hl_tags start_tag end_tag candidate
  if 0 < balance then
    candidate ++ (List.replicate balance.toNat end_tag).flatten
  else
    candidate

/-- A list of spans is chained starting from offset `n`: starts are at or
after `n`, each span is non-degenerate, and each span ends at or before
the next one starts.  `findSpansAux` always returns a chained list, which
is the sorted/non-overlapping guarantee of the Span Scanner. -/
def chainedFrom : Nat → List Span → Prop
  | _, [] => True
  | n, sp :: rest => n ≤ sp.start ∧ sp.start < sp.stop ∧ chainedFrom sp.stop rest

@[simp] theorem Span.start_mk (a b : Nat) : (Span.mk a b).start = a := rfl

@[simp] theorem Span.stop_mk (a b : Nat) : (Span.mk a b).stop = b := rfl

theorem chainedFrom_weaken {n m : Nat} (h : m ≤ n) :
    ∀ {l : List Span}, chainedFrom n l → chainedFrom m l := by
  intro l hl
  cases l with
  | nil => trivial
  | cons sp rest => exact ⟨Nat.le_trans h hl.1, hl.2.1, hl.2.2⟩

theorem isPrefixOf_length_le :
    ∀ (l1 l2 : List Char), l1.isPrefixOf l2 = true → l1.length ≤ l2.length := by
  intro l1
  induction l1 with
  | nil => intro l2 _; simp
  | cons a t ih =>
    intro l2 h
    match l2, h with
    | [], h => simp [List.isPrefixOf] at h
    | b :: t2, h =>
      simp only [List.isPrefixOf, Bool.and_eq_true] at h
      have := ih t2 h.2
      simp only [List.length_cons]
      omega

theorem findChar_lt (target : Char) :
    ∀ (l : List Char) (k : Nat), findChar target l = some k → k < l.length := by
  intro l
  induction l with
  | nil => intro k h; simp [findChar] at h
  | cons c rest ih =>
    intro k h
    simp only [findChar] at h
    by_cases hc : c = target
    · simp [hc] at h
      simp only [List.length_cons]
      omega
    · simp only [hc, if_false, Option.map_eq_some'] at h
      obtain ⟨a, ha, hak⟩ := h
      have := ih a ha
      simp only [List.length_cons]
      omega

theorem findUnescaped_lt :
    ∀ (l : List Char) (esc : Bool) (k : Nat),
      findUnescaped l esc = some k → k < l.length := by
  intro l
  induction l with
  | nil => intro esc k h; simp [findUnescaped] at h
  | cons c rest ih =>
    intro esc k h
    cases esc with
    | true =>
      simp only [findUnescaped, Option.map_eq_some'] at h
      obtain ⟨a, ha, hak⟩ := h
      have := ih false a ha
      simp only [List.length_cons]
      omega
    | false =>
      simp only [findUnescaped] at h
      by_cases hb : c = '\\'
      · simp only [hb, if_true, Option.map_eq_some'] at h
        obtain ⟨a, ha, hak⟩ := h
        have := ih true a ha
        simp only [List.length_cons]
        omega
      · by_cases hd : c = '$'
        · simp [hb, hd] at h
          simp only [List.length_cons]
          omega
        · simp only [hb, hd, if_false, Option.map_eq_some'] at h
          obtain ⟨a, ha, hak⟩ := h
          have := ih false a ha
          simp only [List.length_cons]
          omega

theorem findSpansAux_chained (start_tag end_tag : List Char) :
    ∀ (fuel : Nat) (l : List Char) (i : Nat),
      chainedFrom i (findSpansAux start_tag end_tag fuel l i) := by
  intro fuel
  induction fuel with
  | zero => intro l i; simp [findSpansAux, chainedFrom]
  | succ fuel ih =>
    intro l i
    match l with
    | [] => simp [findSpansAux, chainedFrom]
    | c :: rest =>
      rw [findSpansAux]
      split
      · rename_i h1
        have hpos : 0 < start_tag.length := List.length_pos.mpr h1.1
        exact ⟨Nat.le_refl i, by simp only [Span.start_mk, Span.stop_mk]; omega, ih _ _⟩
      split
      · rename_i h2
        have hpos : 0 < end_tag.length := List.length_pos.mpr h2.1
        exact ⟨Nat.le_refl i, by simp only [Span.start_mk, Span.stop_mk]; omega, ih _ _⟩
      split
      · split
        · exact ⟨Nat.le_refl i, by simp only [Span.start_mk, Span.stop_mk]; omega, ih _ _⟩
        · exact chainedFrom_weaken (Nat.le_succ i) (ih rest (i + 1))
      split
      · split
        · exact ⟨Nat.le_refl i, by simp only [Span.start_mk, Span.stop_mk]; omega, ih _ _⟩
        · exact chainedFrom_weaken (Nat.le_succ i) (ih rest (i + 1))
      · exact chainedFrom_weaken (Nat.le_succ i) (ih rest (i + 1))

theorem findSpansAux_stop_le (start_tag end_tag : List Char) :
    ∀ (fuel : Nat) (l : List Char) (i : Nat) (sp : Span),
      sp ∈ findSpansAux start_tag end_tag fuel l i → sp.stop ≤ i + l.length := by
  intro fuel
  induction fuel with
  | zero => intro l i sp h; simp [findSpansAux] at h
  | succ fuel ih =>
    intro l i sp h
    match l with
    | [] => simp [findSpansAux] at h
    | c :: rest =>
      rw [findSpansAux] at h
      split at h
      · rename_i h1
        have hlen : start_tag.length ≤ (c :: rest).length :=
          isPrefixOf_length_le start_tag (c :: rest) h1.2
        rcases List.mem_cons.mp h with rfl | hmem
        · simpa using hlen
        · have := ih _ _ _ hmem
          rw [List.length_drop] at this
          omega
      split at h
      · rename_i h2
        have hlen : end_tag.length ≤ (c :: rest).length :=
          isPrefixOf_length_le end_tag (c :: rest) h2.2
        rcases List.mem_cons.mp h with rfl | hmem
        · simpa using hlen
        · have := ih _ _ _ hmem
          rw [List.length_drop] at this
          omega
      split at h
      · split at h
        · rename_i k hk
          have hklt := findUnescaped_lt rest false k hk
          rcases List.mem_cons.mp h with rfl | hmem
          · simp only [List.length_cons]
            omega
          · have := ih _ _ _ hmem
            rw [List.length_drop] at this
            simp only [List.length_cons]
            omega
        · have := ih _ _ _ h
          simp only [List.length_cons]
          omega
      split at h
      · split at h
        · rename_i k hk
          have hklt := findChar_lt '>' rest k hk
          rcases List.mem_cons.mp h with rfl | hmem
          · simp only [List.length_cons]
            omega
          · have := ih _ _ _ hmem
            rw [List.length_drop] at this
            simp only [List.length_cons]
            omega
        · have := ih _ _ _ h
          simp only [List.length_cons]
          omega
      · have := ih _ _ _ h
        simp only [List.length_cons]
        omega

/-- The Span Scanner's output obeys the chaining invariant from offset 0. -/
theorem findSpans_chained (start_tag end_tag text : List Char) :
    chainedFrom 0 (findSpans start_tag end_tag text) :=
  findSpansAux_chained start_tag end_tag text.length text 0

/-- Every scanner-reported span lies within the text. -/
theorem findSpans_stop_le (start_tag end_tag text : List Char) (sp : Span)
    (h : sp ∈ findSpans start_tag end_tag text) : sp.stop ≤ text.length := by
  have := findSpansAux_stop_le start_tag end_tag text.length text 0 sp h
  omega

theorem chainedFrom_mem :
    ∀ {l : List Span} {n : Nat} {sp : Span},
      chainedFrom n l → sp ∈ l → n ≤ sp.start ∧ sp.start < sp.stop := by
  intro l
  induction l with
  | nil => intro n sp _ h; simp at h
  | cons a rest ih =>
    intro n sp hc hm
    rcases List.mem_cons.mp hm with rfl | hmem
    · exact ⟨hc.1, hc.2.1⟩
    · have h2 := ih hc.2.2 hmem
      exact ⟨by have := hc.1; have := hc.2.1; omega, h2.2⟩

theorem chainedFrom_ordered :
    ∀ {l : List Span} {n : Nat} {sp sp2 : Span},
      chainedFrom n l → sp ∈ l → sp2 ∈ l →
      sp.stop ≤ sp2.start ∨ sp = sp2 ∨ sp2.stop ≤ sp.start := by
  intro l
  induction l with
  | nil => intro n sp sp2 _ h; simp at h
  | cons a rest ih =>
    intro n sp sp2 hc h1 h2
    rcases List.mem_cons.mp h1 with rfl | hm1 <;>
      rcases List.mem_cons.mp h2 with rfl | hm2
    · exact Or.inr (Or.inl rfl)
    · exact Or.inl (chainedFrom_mem hc.2.2 hm2).1
    · exact Or.inr (Or.inr (chainedFrom_mem hc.2.2 hm1).1)
    · exact ih hc.2.2 hm1 hm2

/-- Neither endpoint of a chained span lies strictly inside any other
chained span: truncating at a span boundary never splits a span. -/
theorem chained_endpoint_safe {l : List Span} {n : Nat} {sp sp2 : Span}
    (hc : chainedFrom n l) (h1 : sp ∈ l) (h2 : sp2 ∈ l) :
    ¬(sp2.start < sp.start ∧ sp.start < sp2.stop)
    ∧ ¬(sp2.start < sp.stop ∧ sp.stop < sp2.stop) := by
  have ho := chainedFrom_ordered hc h1 h2
  have hm1 := chainedFrom_mem hc h1
  have hm2 := chainedFrom_mem hc h2
  rcases ho with h | h | h
  · exact ⟨by omega, by omega⟩
  · subst h
    exact ⟨by omega, by omega⟩
  · exact ⟨by omega, by omega⟩

theorem end_safely_le_length (text : List Char) (d : Nat)
    (start_tag end_tag : List Char) (tol : Nat) :
    end_safely text d start_tag end_tag tol ≤ text.length := by
  rw [end_safely]
  split
  · rename_i sp hfind
    have hmem := List.mem_of_find?_eq_some hfind
    have hstop := findSpans_stop_le start_tag end_tag text sp hmem
    have hlt := (chainedFrom_mem (findSpans_chained start_tag end_tag text) hmem).2
    split <;> omega
  · exact Nat.min_le_right _ _

theorem end_safely_le (text : List Char) (d : Nat)
    (start_tag end_tag : List Char) (tol : Nat) :
    end_safely text d start_tag end_tag tol ≤ d + tol := by
  rw [end_safely]
  split
  · rename_i sp hfind
    have hp := List.find?_some hfind
    simp only [Bool.and_eq_true, decide_eq_true_eq] at hp
    split <;> omega
  · have := Nat.min_le_left d text.length
    omega

theorem end_safely_not_inside (text : List Char) (d : Nat)
    (start_tag end_tag : List Char) (tol : Nat) :
    ∀ sp ∈ findSpans start_tag end_tag text,
      ¬(sp.start < end_safely text d start_tag end_tag tol
        ∧ end_safely text d start_tag end_tag tol < sp.stop) := by
  intro sp hsp
  rw [end_safely]
  split
  · rename_i sp2 hfind
    have hmem2 := List.mem_of_find?_eq_some hfind
    have hsafe := chained_endpoint_safe (findSpans_chained start_tag end_tag text)
      hmem2 hsp
    split
    · exact hsafe.2
    · exact hsafe.1
  · rename_i hnone
    have hall := List.find?_eq_none.mp hnone sp hsp
    simp only [Bool.and_eq_true, decide_eq_true_eq, not_and] at hall
    have hstop := findSpans_stop_le start_tag end_tag text sp hsp
    intro hx
    rcases Nat.le_total d text.length with hle | hle
    · rw [Nat.min_eq_left hle] at hx
      exact absurd hx.2 (by intro h2; exact absurd h2 (by have := hall hx.1; omega))
    · rw [Nat.min_eq_right hle] at hx
      omega

/-- C6: for every text, desired end, tag pair and tolerance, the offset
returned by `computeSafeEnd` (`_end_safely`) is at most the text length
(and at least 0 since offsets are naturals) and never lies strictly
inside any scanner-reported span; when the desired end falls strictly
inside some span (the first such found), the result snaps to the span's
start unless the overrun to the span's end is within tolerance, in which
case it snaps to the span's end; when no span intersects the desired end
the result is `min(desiredEnd, length(text))`. -/
theorem c6_end_safely_contract :
    ∀ (text : List Char) (desiredEnd : Nat) (start_tag end_tag : List Char)
      (tolerance : Nat),
      end_safely text desiredEnd start_tag end_tag tolerance ≤ text.length
      ∧ (∀ sp ∈ findSpans start_tag end_tag text,
          ¬(sp.start < end_safely text desiredEnd start_tag end_tag tolerance
            ∧ end_safely text desiredEnd start_tag end_tag tolerance < sp.stop))
      ∧ (∀ sp, (findSpans start_tag end_tag text).find?
            (fun s => decide (s.start < desiredEnd) && decide (desiredEnd < s.stop))
            = some sp →
          end_safely text desiredEnd start_tag end_tag tolerance
            = if sp.stop - desiredEnd ≤ tolerance then sp.stop else sp.start)
      ∧ ((findSpans start_tag end_tag text).find?
            (fun s => decide (s.start < desiredEnd) && decide (desiredEnd < s.stop))
            = none →
          end_safely text desiredEnd start_tag end_tag tolerance
            = min desiredEnd text.length) := by
  intro text desiredEnd start_tag end_tag tolerance
  refine ⟨end_safely_le_length text desiredEnd start_tag end_tag tolerance,
    end_safely_not_inside text desiredEnd start_tag end_tag tolerance, ?_, ?_⟩
  · intro sp hfind
    rw [end_safely, hfind]
  · intro hnone
    rw [end_safely, hnone]

/-- Concrete instance of C6: in `"ab$cd$ef"` the scanner reports the TeX
span `[2, 6)`; the safe end for desired end 4 with tolerance 0 does not
lie strictly inside it (it snaps to 2). -/
theorem c6_end_safely_contract_witness :
    (Span.mk 2 6) ∈ findSpans "<em>".data "</em>".data "ab$cd$ef".data
    ∧ ¬((Span.mk 2 6).start
          < end_safely "ab$cd$ef".data 4 "<em>".data "</em>".data 0
        ∧ end_safely "ab$cd$ef".data 4 "<em>".data "</em>".data 0
          < (Span.mk 2 6).stop) :=
  ⟨by decide,
    (c6_end_safely_contract "ab$cd$ef".data 4 "<em>".data "</em>".data 0).2.1
      (Span.mk 2 6) (by decide)⟩

/-- Modelled from the spec: the highlight tag literals.  The `highlighting`
module's constants are not under `src/`; the `<em>`/`</em>` pair of the
repository's test fixtures is used as the representative value. -/
def HIGHLIGHT_TAG_OPEN : List Char := "<em>".data

/-- The matching closing highlight tag literal. -/
def HIGHLIGHT_TAG_CLOSE : List Char := "</em>".data

/-- C7: `tagBalance` (`collapse_hl_tags`) is the plain net occurrence
difference `count(startTag) - count(endTag)` for every text and tag pair,
with no nesting awareness; on the highlight tag pair it yields 0 on the
empty string, +3 on three open tags, -3 on three close tags, +1 on
open-open-close, -1 on open-close-close, 0 on open-open-close-close and
open-close-open-close, and 0 on text containing only unrelated tags. -/
theorem c7_tag_balance :
    (∀ (start_tag end_tag text : List Char),
      collapse_hl_tags start_tag end_tag text
        = (countSub start_tag text : Int) - (countSub end_tag text : Int))
    ∧ collapse_hl_tags HIGHLIGHT_TAG_OPEN HIGHLIGHT_TAG_CLOSE [] = 0
    ∧ collapse_hl_tags HIGHLIGHT_TAG_OPEN HIGHLIGHT_TAG_CLOSE
        "<em><em><em>".data = 3
    ∧ collapse_hl_tags HIGHLIGHT_TAG_OPEN HIGHLIGHT_TAG_CLOSE
        "</em></em></em>".data = -3
    ∧ collapse_hl_tags HIGHLIGHT_TAG_OPEN HIGHLIGHT_TAG_CLOSE
        "<em><em></em>".data = 1
    ∧ collapse_hl_tags HIGHLIGHT_TAG_OPEN HIGHLIGHT_TAG_CLOSE
        "<em></em></em>".data = -1
    ∧ collapse_hl_tags HIGHLIGHT_TAG_OPEN HIGHLIGHT_TAG_CLOSE
        "<em><em></em></em>".data = 0
    ∧ collapse_hl_tags HIGHLIGHT_TAG_OPEN HIGHLIGHT_TAG_CLOSE
        "<em></em><em></em>".data = 0
    ∧ collapse_hl_tags HIGHLIGHT_TAG_OPEN HIGHLIGHT_TAG_CLOSE
        "something or other <tag> </closetag> but not important".data = 0 :=
  ⟨fun _ _ _ => rfl, by decide, by decide, by decide, by decide, by decide,
    by decide, by decide, by decide⟩

/-- The total length of `n` concatenated copies of a list. -/
theorem flatten_replicate_length (n : Nat) (l : List Char) :
    (List.replicate n l).flatten.length = n * l.length := by
  induction n with
  | zero => simp
  | succ n ih =>
    rw [List.replicate_succ, List.flatten_cons, List.length_append, ih,
      Nat.succ_mul]
    omega

/-- C8: `preview` takes the text prefix up to the safe end computed for
the requested fragment size, appends the end tag exactly `balance` times
when the candidate's tag balance is positive, and returns the candidate
unmodified when the balance is non-positive; consequently its length is
at most the fragment size plus the tolerance slack plus the length of the
appended closing tags, and the cut offset never lies strictly inside a
scanner-reported span. -/
theorem c8_preview_contract :
    ∀ (text : List Char) (fragment_size : Nat) (start_tag end_tag : List Char),
      (0 < collapse_hl_tags start_tag end_tag
          (text.take (end_safely text fragment_size start_tag end_tag
            PREVIEW_TOLERANCE)) →
        preview text fragment_size start_tag end_tag
          = text.take (end_safely text fragment_size start_tag end_tag
              PREVIEW_TOLERANCE)
            ++ (List.replicate (collapse_hl_tags start_tag end_tag
                (text.take (end_safely text fragment_size start_tag end_tag
                  PREVIEW_TOLERANCE))).toNat end_tag).flatten)
      ∧ (collapse_hl_tags start_tag end_tag
          (text.take (end_safely text fragment_size start_tag end_tag
            PREVIEW_TOLERANCE)) ≤ 0 →
        preview text fragment_size start_tag end_tag
          = text.take (end_safely text fragment_size start_tag end_tag
              PREVIEW_TOLERANCE))
      ∧ (preview text fragment_size start_tag end_tag).length
          ≤ fragment_size + PREVIEW_TOLERANCE
            + (collapse_hl_tags start_tag end_tag
                (text.take (end_safely text fragment_size start_tag end_tag
                  PREVIEW_TOLERANCE))).toNat * end_tag.length
      ∧ (∀ sp ∈ findSpans start_tag end_tag text,
          ¬(sp.start < end_safely text fragment_size start_tag end_tag
              PREVIEW_TOLERANCE
            ∧ end_safely text fragment_size start_tag end_tag
              PREVIEW_TOLERANCE < sp.stop)) := by
  intro text fragment_size start_tag end_tag
  have hcand : (text.take (end_safely text fragment_size start_tag end_tag
      PREVIEW_TOLERANCE)).length
      ≤ fragment_size + PREVIEW_TOLERANCE := by
    rw [List.length_take]
    have := end_safely_le text fragment_size start_tag end_tag PREVIEW_TOLERANCE
    omega
  refine ⟨?_, ?_, ?_,
    end_safely_not_inside text fragment_size start_tag end_tag PREVIEW_TOLERANCE⟩
  · intro hpos
    rw [preview, if_pos hpos]
  · intro hnonpos
    rw [preview, if_neg (by omega)]
  · rw [preview]
    split
    · rw [List.length_append, flatten_replicate_length]
      omega
    · omega

/-- Concrete instance of C8: for `"ab<em>cd"` with fragment size 7 the
candidate cut is `"ab<em>c"`, whose balance is +1, so one closing tag is
appended. -/
theorem c8_preview_contract_witness :
    preview "ab<em>cd".data 7 "<em>".data "</em>".data
      = "ab<em>c".data ++ (List.replicate 1 "</em>".data).flatten := by
  have h := (c8_preview_contract "ab<em>cd".data 7 "<em>".data "</em>".data).1
    (by decide)
  rw [h]
  rfl

/-!
Part 3 embeds the fulltext retrieval client
(`search/services/fulltext.py`): `FulltextSession.__init__` and
`FulltextSession.retrieve`.  The network is abstracted as the outcome of
the single `requests.get` call: either an SSL failure or a response with
a status code and a body that may or may not decode as JSON.
-/

/-- The decoded fulltext payload (`Fulltext(**data)`); the domain class is
external, so the payload is kept opaque. -/
structure Fulltext where
  data : String
deriving DecidableEq

/-- Outcome of the `requests.get` call in `retrieve`: an
`requests.exceptions.SSLError`, or a response carrying its status code
and, when the body decodes as JSON, the decoded payload (`none` stands
for a body that raises `json.decoder.JSONDecodeError`). -/
inductive NetResult where
  | sslError (msg : String)
  | response (status : Nat) (body : Option Fulltext)
deriving DecidableEq

/-- The exceptions `retrieve` raises: `ValueError` for an invalid
document id, `IOError` for retrieval failures. -/
inductive RetrieveError where
  | valueError (msg : String)
  | ioError (msg : String)
deriving DecidableEq

/-- The state `FulltextSession.__init__` stores: the endpoint string
(kept as a character list so the trailing-slash normalization is
explicit). -/
structure FulltextSession where
  endpoint : List Char
deriving DecidableEq

/-- `FulltextSession.__init__`: `endpoint[-1]` on the empty string raises
`IndexError`; otherwise a `"/"` is appended exactly when the last
character is not already `"/"`, and the result is stored. -/
def initSession (endpoint : List Char) : Except String FulltextSession :=
  match endpoint with
  | [] => Except.error "IndexError: string index out of range"
  | _ :: _ =>
    if endpoint.getLast? = some '/' then Except.ok ⟨endpoint⟩
    else Except.ok ⟨endpoint ++ ['/']⟩

/-- Is the network outcome one of the unavailable conditions: transport
(SSL) failure, non-200 status, or undecodable body? -/
def unavailable : NetResult → Prop
  | NetResult.sslError _ => True
  | NetResult.response status body => status ≠ 200 ∨ body = none

/-- `FulltextSession.retrieve`: an empty `document_id` raises
`ValueError` before the network call; an `SSLError` from the transport,
a status other than `HTTPStatus.OK` (200), or a body that fails JSON
decoding each raise `IOError`; otherwise the decoded payload is returned
as the `Fulltext`. -/
def retrieve (s : FulltextSession) (document_id : String) (net : NetResult) :
    Except RetrieveError Fulltext :=
  if document_id = "" then
    Except.error (RetrieveError.valueError "Invalid value for document_id")
  else
    match net with
    | NetResult.sslError m =>
      Except.error (RetrieveError.ioError ("SSL failed: " ++ m))
    | NetResult.response status body =>
      if status ≠ 200 then
        Except.error (RetrieveError.ioError
          (document_id ++ ": could not retrieve fulltext: " ++ toString status))
      else
        match body with
        | none =>
          Except.error (RetrieveError.ioError
            (document_id ++ ": could not decode response"))
        | some d => Except.ok d

/-- C9: `retrieve` raises `ValueError` exactly on the empty document id,
and does so before any network access (the result is then independent of
the network outcome); it raises `IOError` exactly when the id is
non-empty and the transport failed, the status is not 200 OK, or the
body is undecodable; otherwise it returns the `Fulltext` built from the
decoded response. -/
theorem c9_retrieve_errors :
    ∀ (s : FulltextSession) (document_id : String) (net : NetResult),
      ((∃ m, retrieve s document_id net
          = Except.error (RetrieveError.valueError m)) ↔ document_id = "")
      ∧ (document_id = "" → ∀ net2,
          retrieve s document_id net = retrieve s document_id net2)
      ∧ ((∃ m, retrieve s document_id net
          = Except.error (RetrieveError.ioError m))
          ↔ (document_id ≠ "" ∧ unavailable net))
      ∧ (∀ d, document_id ≠ "" → net = NetResult.response 200 (some d) →
          retrieve s document_id net = Except.ok d) := by
  intro s document_id net
  by_cases hid : document_id = ""
  · refine ⟨⟨fun _ => hid, fun _ => ?_⟩, fun _ net2 => ?_, ⟨?_, ?_⟩, ?_⟩
    · exact ⟨"Invalid value for document_id", by rw [retrieve.eq_def, if_pos hid]⟩
    · rw [retrieve.eq_def, if_pos hid, retrieve.eq_def, if_pos hid]
    · intro ⟨m, hm⟩
      rw [retrieve.eq_def, if_pos hid] at hm
      exact absurd (Except.error.inj hm) (by intro h; cases h)
    · intro ⟨h, _⟩
      exact absurd hid h
    · intro d h _
      exact absurd hid h
  · refine ⟨⟨?_, fun h => absurd h hid⟩, fun h => absurd h hid, ⟨?_, ?_⟩, ?_⟩
    · intro ⟨m, hm⟩
      rw [retrieve.eq_def, if_neg hid] at hm
      match net, hm with
      | NetResult.sslError msg, hm => exact absurd (Except.error.inj hm) (by intro h; cases h)
      | NetResult.response status body, hm =>
        dsimp only at hm
        by_cases hst : status ≠ 200
        · rw [if_pos hst] at hm
          exact absurd (Except.error.inj hm) (by intro h; cases h)
        · rw [if_neg hst] at hm
          match body, hm with
          | none, hm => exact absurd (Except.error.inj hm) (by intro h; cases h)
          | some d, hm => cases hm
    · intro ⟨m, hm⟩
      rw [retrieve.eq_def, if_neg hid] at hm
      refine ⟨hid, ?_⟩
      match net, hm with
      | NetResult.sslError msg, _ => trivial
      | NetResult.response status body, hm =>
        dsimp only at hm
        by_cases hst : status ≠ 200
        · exact Or.inl hst
        · rw [if_neg hst] at hm
          match body, hm with
          | none, _ => exact Or.inr rfl
          | some d, hm => cases hm
    · intro ⟨_, hun⟩
      rw [retrieve.eq_def, if_neg hid]
      match net, hun with
      | NetResult.sslError msg, _ => exact ⟨"SSL failed: " ++ msg, rfl⟩
      | NetResult.response status body, hun =>
        by_cases hst : status ≠ 200
        · exact ⟨document_id ++ ": could not retrieve fulltext: " ++ toString status,
            by dsimp only; rw [if_pos hst]⟩
        · have hbody : body = none := hun.resolve_left hst
          subst hbody
          exact ⟨document_id ++ ": could not decode response",
            by dsimp only; rw [if_neg hst]⟩
    · intro d _ hnet
      subst hnet
      simp [retrieve, hid]

/-- Concrete instance of C9: with a non-empty id, a 200 response whose
body decodes, the decoded payload is returned as the `Fulltext`. -/
theorem c9_retrieve_errors_witness :
    retrieve ⟨"https://fulltext.arxiv.org/fulltext/".data⟩ "1234.56787v3"
        (NetResult.response 200 (some ⟨"abstract text"⟩))
      = Except.ok ⟨"abstract text"⟩ :=
  (c9_retrieve_errors ⟨"https://fulltext.arxiv.org/fulltext/".data⟩
      "1234.56787v3" (NetResult.response 200 (some ⟨"abstract text"⟩))).2.2.2
    ⟨"abstract text"⟩ (by decide) rfl

/-- C10: for every non-empty endpoint, `__init__` stores an endpoint that
ends with `'/'` — unchanged when the argument already ends with a slash,
with `'/'` appended exactly otherwise — and constructing a session from
the empty endpoint fails (string index error) rather than storing it.
The stored field is never mutated afterwards: in this embedding
`retrieve` only reads the session. -/
theorem c10_endpoint_normalized :
    ∀ (endpoint : List Char),
      (endpoint ≠ [] →
        ∃ s, initSession endpoint = Except.ok s
          ∧ s.endpoint.getLast? = some '/'
          ∧ (endpoint.getLast? = some '/' → s.endpoint = endpoint)
          ∧ (endpoint.getLast? ≠ some '/' → s.endpoint = endpoint ++ ['/']))
      ∧ (endpoint = [] → ∃ m, initSession endpoint = Except.error m) := by
  intro endpoint
  constructor
  · intro hne
    match endpoint, hne with
    | c :: cs, _ =>
      by_cases hl : (c :: cs).getLast? = some '/'
      · refine ⟨⟨c :: cs⟩, ?_, hl, fun _ => rfl, fun h => absurd hl h⟩
        rw [initSession, if_pos hl]
      · refine ⟨⟨(c :: cs) ++ ['/']⟩, ?_, ?_, fun h => absurd h hl, fun _ => rfl⟩
        · rw [initSession, if_neg hl]
        · exact List.getLast?_concat _
  · intro he
    subst he
    exact ⟨"IndexError: string index out of range", rfl⟩

/-- Concrete instance of C10: a slash is appended to an endpoint that
does not end with one. -/
theorem c10_endpoint_normalized_witness :
    ['h', 't', 't', 'p', ':', '/', '/', 'x'] ≠ ([] : List Char)
    ∧ ∃ s, initSession ['h', 't', 't', 'p', ':', '/', '/', 'x'] = Except.ok s
        ∧ s.endpoint.getLast? = some '/'
        ∧ (['h', 't', 't', 'p', ':', '/', '/', 'x'].getLast? = some '/' →
            s.endpoint = ['h', 't', 't', 'p', ':', '/', '/', 'x'])
        ∧ (['h', 't', 't', 'p', ':', '/', '/', 'x'].getLast? ≠ some '/' →
            s.endpoint = ['h', 't', 't', 'p', ':', '/', '/', 'x'] ++ ['/']) :=
  ⟨by decide,
    (c10_endpoint_normalized ['h', 't', 't', 'p', ':', '/', '/', 'x']).1
      (by decide)⟩

example : countSub ['a', 'a'] ['a', 'a', 'a'] = 1 := by decide

example : collapse_hl_tags "<em>".data "</em>".data "<em>a<em>b</em>".data = 1 := by
  decide

example : findSpans "<em>".data "</em>".data "ab$cd$ef".data = [⟨2, 6⟩] := by
  decide

example : end_safely "ab$cd$ef".data 4 "<em>".data "</em>".data 0 = 2 := by decide

example : end_safely "ab$cd$ef".data 4 "<em>".data "</em>".data 2 = 6 := by decide

example : preview "ab<em>cd".data 7 "<em>".data "</em>".data
    = "ab<em>c</em>".data := by decide

end ArxivSearch
